import Mathlib

/-!
Verification of the segregated-fit allocator in `src/mm.c`.

Modelling conventions:
* The platform is LP64: `WSIZE = sizeof(void *) = 8` bytes, machine words are
  64 bits wide, C `int` is 32 bits.  All `size_t`/`uintptr_t` arithmetic is
  carried out on `Nat` and reduced `% 2^64` exactly where the machine wraps.
* Memory is word addressed: an association list from (byte) addresses to the
  64-bit word stored there, most recent write first.  All loads and stores the
  allocator performs are through the word macros `GET`/`PUT`; `memcpy` is
  modelled byte by byte on top of the word cells.  A location that has never
  been written reads as zero (the backing arena of `memlib` is a fresh
  zero-filled region).
* The arena primitive `mem_sbrk` lives in `memlib.c`, which is not part of
  `src/`; it is modelled from the spec (section 4.1) as a monotone bump
  allocator with a fixed maximum, starting at a 16-byte aligned base 0.
* Diagnostic `printf` calls have no effect on the allocator state and are
  dropped; the consistency checker is modelled as returning its list of error
  messages instead of printing them.
* The C globals (`heap_listp`, `last_bp`, `beginning_heap`, `heap_index`)
  together with the arena contents form the state record `St`.  `heap_index`
  is a C `int`, modelled as `Int`; `beginning_heap` is indexed by `Int` so
  that the out-of-bounds accesses `beginning_heap[-1]` / `beginning_heap[21]`
  the C code can perform are total (they touch a cell no in-bounds index uses).
-/

namespace MM

/-- `WSIZE`: word and header/footer size in bytes (`sizeof(void *)` on LP64). -/
def WSIZE : Nat := 8

/-- `DSIZE`: double word size in bytes. -/
def DSIZE : Nat := 2 * WSIZE

/-- `CHUNKSIZE`: initial heap extension in bytes (`1 << 12`). -/
def CHUNKSIZE : Nat := 4096

/-- `NUM_HEAPS`: number of segregated size classes. -/
def NUM_HEAPS : Nat := 21

/-- Modulus of 64-bit machine words. -/
def WORD : Nat := 2 ^ 64

/-- Two's-complement reading of the low 32 bits of a value: the effect of a
C cast to `int` of a `size_t` value. -/
def intCast (n : Nat) : Int :=
  let r : Nat := n % 2 ^ 32
  if r < 2 ^ 31 then (r : Int) else (r : Int) - 2 ^ 32

/-- Word-addressed memory: newest write first, unwritten cells read as 0. -/
abbrev Mem := List (Nat × Nat)

/-- `GET(p)`: read the word at address `p`. -/
def load : Mem → Nat → Nat
  | [], _ => 0
  | (a, v) :: rest, x => if a = x then v else load rest x

/-- `PUT(p, val)`: write the word `val` (truncated to 64 bits) at address `p`. -/
def store (m : Mem) (a v : Nat) : Mem := (a, v % WORD) :: m

/-- `PACK(size, alloc)`: pack a size and an allocated bit into one word. -/
def pack (size alloc : Nat) : Nat := size ||| alloc

/-- `GET_SIZE(p)` applied to a loaded word: mask off the low `WSIZE - 1` bits. -/
def getSize (v : Nat) : Nat := v / WSIZE * WSIZE

/-- `GET_ALLOC(p)` applied to a loaded word: the low bit. -/
def getAlloc (v : Nat) : Nat := v % 2

/-- 64-bit wrapping addition, used for C pointer/`size_t` arithmetic. -/
def aAdd (x y : Nat) : Nat := (x + y) % WORD

/-- 64-bit wrapping subtraction (for `x < 2^64`). -/
def aSub (x y : Nat) : Nat := (x + WORD - y % WORD) % WORD

/-- `HDRP(bp)`: address of the header of the block with payload pointer `bp`. -/
def hdrp (bp : Nat) : Nat := aSub bp WSIZE

/-- `GET_SIZE(HDRP(bp))`: current size of the block at `bp`. -/
def blkSize (m : Mem) (bp : Nat) : Nat := getSize (load m (hdrp bp))

/-- `FTRP(bp)`: address of the footer of the block at `bp` (uses the header). -/
def ftrp (m : Mem) (bp : Nat) : Nat := aSub (aAdd bp (blkSize m bp)) DSIZE

/-- `NEXT_BLKP(bp)`: payload address of the next block in address order. -/
def nextBlkp (m : Mem) (bp : Nat) : Nat := aAdd bp (blkSize m bp)

/-- `PREV_BLKP(bp)`: payload address of the previous block in address order. -/
def prevBlkp (m : Mem) (bp : Nat) : Nat := aSub bp (getSize (load m (aSub bp DSIZE)))

/-- `NEXT_PTR(bp)`: address of the successor link of a free block. -/
def nextPtrA (m : Mem) (bp : Nat) : Nat := aSub (ftrp m bp) WSIZE

/-- `PREV_PTR(bp)`: address of the predecessor link of a free block. -/
def prevPtrA (m : Mem) (bp : Nat) : Nat := aSub (ftrp m bp) (2 * WSIZE)

/-- Byte stored at byte address `a` (little endian within a word). -/
def byteAt (m : Mem) (a : Nat) : Nat :=
  load m (a / 8 * 8) / 2 ^ (8 * (a % 8)) % 2 ^ 8

/-- Overwrite the byte at byte address `a` with `b`, leaving the other bytes
of the containing word unchanged. -/
def setByte (m : Mem) (a b : Nat) : Mem :=
  let w := a / 8 * 8
  let o := a % 8
  let v := load m w
  store m w (v % 2 ^ (8 * o) + b % 2 ^ 8 * 2 ^ (8 * o) + v / 2 ^ (8 * (o + 1)) * 2 ^ (8 * (o + 1)))

/-- `memcpy(dst, src, n)`: copy `n` bytes upward; byte `k` is copied after
bytes `0..k-1` and reads the memory produced so far (the regions are required
to be disjoint by the C standard, under which this is the standard forward
implementation). -/
def memcpy (m : Mem) (dst src : Nat) : Nat → Mem
  | 0 => m
  | n + 1 =>
    let m1 := memcpy m dst src n
    setByte m1 (aAdd dst n) (byteAt m1 (aAdd src n))

/-- Allocator state: the arena contents plus the C globals of `mm.c` and the
arena cursor of the (spec-modelled) `memlib` collaborator. -/
structure St where
  mem : Mem
  buckets : Int → Nat
  heapIndex : Int
  heapListp : Nat
  lastBp : Nat
  brk : Nat
  maxAddr : Nat

/-- Modelled from the spec: the arena collaborator `grow(n_bytes)` of section
4.1 (`mem_sbrk` of `memlib.c`, which is not part of `src/`).  It extends the
arena monotonically up to a fixed maximum and returns the address immediately
after the previously granted region, or fails with no state change. -/
def memSbrk (st : St) (incr : Nat) : St × Option Nat :=
  if st.brk + incr > st.maxAddr then (st, none)
  else ({ st with brk := st.brk + incr }, some st.brk)

/-- Body of the block-carving loop of `init_heap` (`mm.c` lines 462-475):
carve `reps` blocks of `blockSize` bytes starting at `bp`, pushing each onto
the bucket whose current head is `head`.  Returns the final memory, head and
block pointer. -/
def initHeapCarve (m : Mem) (head bp blockSize : Nat) : Nat → Mem × Nat × Nat
  | 0 => (m, head, bp)
  | reps + 1 =>
    let m := store m (hdrp bp) (pack blockSize 0)
    let m := store m (ftrp m bp) (pack blockSize 0)
    let m := store m (prevPtrA m bp) 0
    let m := store m (nextPtrA m bp) head
    let m := if head ≠ 0 then store m (prevPtrA m head) bp else m
    initHeapCarve m bp (nextBlkp m bp) blockSize reps

/-- The size-class loop of `init_heap` (`mm.c` lines 444-476), iterating class
index `i` while `fuel` steps remain: grab a chunk of `size` bytes from the
arena for each class with `size >= 5 * 2^i` and carve it into
`words / block_size` blocks of that class. -/
def initHeapLoop (st : St) (size words bp : Nat) (i : Nat) : Nat → St × Option Nat
  | 0 => (st, some bp)
  | fuel + 1 =>
    if size ≥ 5 * 2 ^ i then
      match memSbrk st size with
      | (stf, none) => (stf, none)
      | (st1, some nbp) =>
        let m := st1.mem
        let m := store m (hdrp nbp) (pack size 0)
        let m := store m (ftrp m nbp) (pack size 0)
        let m := store m (hdrp (nextBlkp m nbp)) (pack 0 1)
        let blockSize := 5 * 2 ^ i * WSIZE
        let reps := words / blockSize
        let r := initHeapCarve m (st1.buckets i) nbp blockSize reps
        let st2 := { st1 with
          mem := r.1,
          buckets := fun j => if j = (i : Int) then r.2.1 else st1.buckets j }
        initHeapLoop st2 size words r.2.2 (i + 1) fuel
    else (st, some bp)

/-- `init_heap(words)` (`mm.c` lines 432-479): zero the bucket array, then
pre-partition the initial arena growth across the size classes.  The local
`bp` starts at 0, standing for the uninitialised C local. -/
def initHeap (st : St) (words : Nat) : St × Option Nat :=
  let size := if words % 2 = 1 then (words + 1) * WSIZE else words * WSIZE
  let st := { st with buckets := fun j => if 0 ≤ j ∧ j < (NUM_HEAPS : Int) then 0 else st.buckets j }
  initHeapLoop st size words 0 0 NUM_HEAPS

/-- `mm_init()` (`mm.c` lines 108-129): pad word, one-word prologue
header/footer, epilogue header, then `init_heap(CHUNKSIZE / WSIZE)`.
Returns 0 on success and -1 on failure. -/
def mmInit (st : St) : St × Int :=
  match memSbrk st (5 * WSIZE) with
  | (stf, none) => ({ stf with heapListp := WORD - 1 }, -1)
  | (st1, some base) =>
    let m := st1.mem
    let m := store m base 0
    let m := store m (base + 1 * WSIZE) (pack WSIZE 1)
    let m := store m (base + 2 * WSIZE) (pack WSIZE 1)
    let m := store m (base + 3 * WSIZE) (pack 0 1)
    let hl := base + 2 * WSIZE
    let st2 := { st1 with mem := m, heapListp := hl, lastBp := hl }
    match initHeap st2 (CHUNKSIZE / WSIZE) with
    | (st3, none) => (st3, -1)
    | (st3, some _) => (st3, 0)

/-- The size adjustment of `mm_malloc` (`mm.c` lines 154-159): overhead plus
word-granularity rounding, on wrapping `size_t` arithmetic. -/
def adjustSize (size : Nat) : Nat :=
  if size ≤ WSIZE then 5 * WSIZE
  else
    let a := (size + 2 * DSIZE) % WORD
    let b := (a + (WSIZE - 1)) % WORD
    WSIZE * (b / WSIZE) % WORD

/-- The class-selection loop of `mm_malloc` (`mm.c` lines 161-168) and of
`place` (lines 686-691): the first class `i` with
`(int)(5*WSIZE * (1 << i)) > (int)asize`, if any. -/
def classLoop (asize : Nat) : Option Nat :=
  (List.range NUM_HEAPS).find? fun i => intCast (5 * WSIZE * 2 ^ i % WORD) > intCast asize

/-- The bucket-selection loop of `mm_free` (`mm.c` lines 215-221): the class
found by `classLoop`, minus one (`heap_index = i - 1`), or -1 if none. -/
def freeBucketIdx (size : Nat) : Int :=
  match classLoop size with
  | some i => (i : Int) - 1
  | none => -1

/-- The scan of `segregated_first_fit` (`mm.c` lines 560-571), from class `i`
upward; the fuel dominates the number of remaining classes. -/
def segScan (st : St) (i : Int) : Nat → St × Option Nat
  | 0 => (st, none)
  | fuel + 1 =>
    if i < (NUM_HEAPS : Int) then
      if st.buckets i ≠ 0 then ({ st with heapIndex := i }, some (st.buckets i))
      else segScan st (i + 1) fuel
    else (st, none)

/-- `segregated_first_fit(asize)` (`mm.c` lines 554-575): return the head of
the first non-empty bucket at or above the current `heap_index`, updating
`heap_index` to the class that supplied the block.  `asize` is not consulted
(the function body only contains the self-assignment `asize = asize`). -/
def segregatedFirstFit (st : St) (asize : Nat) : St × Option Nat :=
  let _ := asize
  segScan st st.heapIndex ((NUM_HEAPS : Int) + 1 - st.heapIndex).toNat

/-- `find_fit(asize)` (`mm.c` lines 489-507): delegates to
`segregated_first_fit`; the `if (8 == D)` block with the other policies is
dead code (`D` is the constant -1). -/
def findFit (st : St) (asize : Nat) : St × Option Nat :=
  segregatedFirstFit st asize

/-- `place(bp, asize)` (`mm.c` lines 655-704): pop `bp` off the head of the
current bucket, then either split (when the leftover is at least `5*WSIZE`)
or allocate the whole block.  When splitting, the remainder is linked into
the bucket `classLoop asize` points at, but (as in the source) the bucket
head itself is not updated (line 698 assigns the local `next_blk`). -/
def place (st : St) (bp asize : Nat) : St :=
  let m := st.mem
  let csize := blkSize m bp
  let next_ptr := load m (nextPtrA m bp)
  let st :=
    if bp = st.buckets st.heapIndex then
      let st1 := { st with
        buckets := fun j => if j = st.heapIndex then next_ptr else st.buckets j }
      if next_ptr ≠ 0 then
        { st1 with mem := store st1.mem (prevPtrA st1.mem next_ptr) 0 }
      else st1
    else st
  let diff := (csize + WORD - asize % WORD) % WORD
  if diff ≥ 5 * WSIZE then
    let m := st.mem
    let m := store m (hdrp bp) (pack asize 1)
    let m := store m (ftrp m bp) (pack asize 1)
    let next_blk := nextBlkp m bp
    if next_blk ≠ 0 then
      let m := store m (hdrp next_blk) (pack diff 0)
      let m := store m (ftrp m next_blk) (pack diff 0)
      let i : Int := match classLoop asize with
        | some i => (i : Int)
        | none => (NUM_HEAPS : Int)
      let m := store m (nextPtrA m next_blk) (st.buckets i)
      let m := if st.buckets i ≠ 0 then store m (prevPtrA m (st.buckets i)) next_blk else m
      { st with mem := m }
    else { st with mem := m }
  else
    let m := st.mem
    let m := store m (hdrp bp) (pack csize 1)
    let m := store m (ftrp m bp) (pack csize 1)
    { st with mem := m }

/-- `extend_heap(words)` (`mm.c` lines 400-430): round the word count to even,
grow the arena, stamp the new free block and epilogue, and push the block
onto the bucket `heap_index` currently points at (the `coalesce` call is
behind `if (0)` in the source and never runs). -/
def extendHeap (st : St) (words : Nat) : St × Option Nat :=
  let size := (if words % 2 = 1 then (words + 1) * WSIZE else words * WSIZE) % WORD
  match memSbrk st size with
  | (stf, none) => (stf, none)
  | (st1, some bp) =>
    let m := st1.mem
    let m := store m (hdrp bp) (pack size 0)
    let m := store m (ftrp m bp) (pack size 0)
    let m := store m (hdrp (nextBlkp m bp)) (pack 0 1)
    let m := store m (prevPtrA m bp) 0
    let m := store m (nextPtrA m bp) (st1.buckets st1.heapIndex)
    let m := if st1.buckets st1.heapIndex ≠ 0 then
        store m (prevPtrA m (st1.buckets st1.heapIndex)) bp
      else m
    ({ st1 with
        mem := m
        buckets := fun j => if j = st1.heapIndex then bp else st1.buckets j },
     some bp)

/-- The search-or-grow phase of `mm_malloc` (`mm.c` lines 175-188): search
the registry for a fit and place there, or extend the heap by `extendsize`
and place in the fresh block. -/
def mallocSearch (st : St) (asize extendsize : Nat) : St × Option Nat :=
  match findFit st asize with
  | (st1, some bp) => (place st1 bp asize, some bp)
  | (st1, none) =>
    match extendHeap st1 (extendsize / WSIZE) with
    | (st2, none) => (st2, none)
    | (st2, some bp) => (place st2 bp asize, some bp)

/-- `mm_malloc(size)` (`mm.c` lines 140-189): reset `heap_index`, ignore zero
requests, adjust the size, pick the class, search the registry, and on a miss
extend the arena by the class capacity and place there. -/
def mmMalloc (st : St) (size : Nat) : St × Option Nat :=
  let st := { st with heapIndex := -1 }
  if size = 0 then (st, none)
  else
    let asize := adjustSize size
    let st := match classLoop asize with
      | some i => { st with heapIndex := (i : Int) }
      | none => st
    let extendsize := match classLoop asize with
      | some i => 5 * WSIZE * 2 ^ i
      | none => asize
    mallocSearch st asize extendsize

/-- `mm_free(bp)` (`mm.c` lines 198-238): reset `heap_index`, ignore null,
clear the boundary tags, pick the receiving bucket (`heap_index = i - 1`),
and push the block at that bucket head.  The `coalesce` call of the textbook
algorithm is commented out in the source (line 226), so the block is inserted
as is. -/
def mmFree (st : St) (bp : Option Nat) : St :=
  let st := { st with heapIndex := -1 }
  match bp with
  | none => st
  | some bp =>
    let m := st.mem
    let size := blkSize m bp
    let m := store m (hdrp bp) (pack size 0)
    let m := store m (ftrp m bp) (pack size 0)
    let hi := freeBucketIdx size
    let head := st.buckets hi
    let m := store m (prevPtrA m bp) 0
    let m := store m (nextPtrA m bp) head
    let m := if head ≠ 0 then store m (prevPtrA m head) bp else m
    { st with
      mem := m
      heapIndex := hi
      buckets := fun j => if j = hi then bp else st.buckets j }

/-- `mm_realloc(ptr, size)` (`mm.c` lines 253-285): `size == 0` frees;
`ptr == NULL` mallocs; otherwise allocate fresh, copy
`min(GET_SIZE(HDRP(ptr)), size)` bytes, free the old block. -/
def mmRealloc (st : St) (ptr : Option Nat) (size : Nat) : St × Option Nat :=
  if size = 0 then (mmFree st ptr, none)
  else
    match ptr with
    | none => mmMalloc st size
    | some p =>
      match mmMalloc st size with
      | (st1, none) => (st1, none)
      | (st1, some newp) =>
        let oldsize := blkSize st1.mem p
        let n := if size < oldsize then size else oldsize
        let st2 := { st1 with mem := memcpy st1.mem newp p n }
        (mmFree st2 (some p), some newp)

/-- The checks of `checkblock(bp)` (`mm.c` lines 717-725), as the list of
error messages it would print: word alignment and header/footer agreement. -/
def checkblockErrs (m : Mem) (bp : Nat) : List String :=
  (if bp % WSIZE ≠ 0 then ["not doubleword aligned"] else []) ++
  (if load m (hdrp bp) ≠ load m (ftrp m bp) then ["header does not match footer"] else [])

/-- The free-list walk of `checkheap`: follow successor links from a bucket
head, with fuel bounding the number of visited nodes. -/
def bucketWalk (m : Mem) : Nat → Nat → List Nat
  | _, 0 => []
  | bp, fuel + 1 => if bp = 0 then [] else bp :: bucketWalk m (load m (nextPtrA m bp)) fuel

/-- `checkheap(false)` (`mm.c` lines 734-763), as the list of error messages
it would print: prologue checks, then `checkblock` on every node reachable
from every bucket head. -/
def checkheapErrs (st : St) (fuel : Nat) : List String :=
  (if getSize (load st.mem (hdrp st.heapListp)) ≠ WSIZE ∨
      getAlloc (load st.mem (hdrp st.heapListp)) = 0 then ["Bad prologue header"] else []) ++
  checkblockErrs st.mem st.heapListp ++
  ((List.range NUM_HEAPS).flatMap fun i =>
    (bucketWalk st.mem (st.buckets i) fuel).flatMap (checkblockErrs st.mem))

/-- Address-order traversal of the heap, in the iteration pattern of
`first_fit` / `next_fit` / `checkheap` of the textbook code: from
`heap_listp`, step by `NEXT_BLKP` while the header size is nonzero.  Fuel
bounds the number of visited blocks. -/
def addrWalk (m : Mem) : Nat → Nat → List Nat
  | _, 0 => []
  | bp, fuel + 1 =>
    if blkSize m bp > 0 then bp :: addrWalk m (nextBlkp m bp) fuel else []

/-- The boundary-tag invariant along the address-order traversal: every
visited block carries identical header and footer words. -/
def hdrFtrOk (st : St) (fuel : Nat) : Bool :=
  (addrWalk st.mem st.heapListp fuel).all fun bp =>
    load st.mem (hdrp bp) == load st.mem (ftrp st.mem bp)

/-- Two physically adjacent blocks starting at `bp`, both with their
allocated bits clear and nonzero sizes. -/
def adjacentBothFree (st : St) (bp : Nat) : Prop :=
  0 < blkSize st.mem bp ∧ 0 < blkSize st.mem (nextBlkp st.mem bp) ∧
  getAlloc (load st.mem (hdrp bp)) = 0 ∧
  getAlloc (load st.mem (hdrp (nextBlkp st.mem bp))) = 0

/-- The bucket-index rule in the words of the spec (section 4.3): the
smallest class index whose nominal capacity `MIN_BLOCK * 2^i = 5*WSIZE*2^i`
strictly exceeds the given size. -/
def specBucketIdx (size : Nat) : Option Nat :=
  (List.range NUM_HEAPS).find? fun i => 5 * WSIZE * 2 ^ i > size

/-- The placement-engine scan in the words of the spec (section 4.4): the
first class index at or above the cursor `c` whose bucket is non-empty. -/
def firstNonEmptyFrom (st : St) (c : Nat) : Option Nat :=
  (List.range NUM_HEAPS).find? fun i => decide (c ≤ i ∧ st.buckets (i : Int) ≠ 0)

/-- The pristine state: fresh zeroed C globals, an empty arena starting at
address 0 (the 16-byte aligned base `memlib` hands out), and an arena
maximum of 41000 bytes, exactly the amount `mm_init` consumes. -/
def stInit : St :=
  { mem := [], buckets := fun _ => 0, heapIndex := 0,
    heapListp := 0, lastBp := 0, brk := 0, maxAddr := 41000 }

/-- The heap right after a successful `mm_init()`. -/
def st0 : St := (mmInit stInit).1

/-- The heap after `mm_init()` followed by `mm_malloc(100)`. -/
def stM : St := (mmMalloc st0 100).1

/-- The heap after two `mm_malloc(100)` calls on a fresh heap. -/
def stTwo : St := (mmMalloc stM 100).1

/-- The heap after allocating two blocks of 100 bytes and releasing both. -/
def stRel : St := mmFree (mmFree stTwo (some 8552)) (some 8392)

/-- Well-formed memory: every stored word fits in 64 bits (true of
everything `store` produces). -/
def memWF (m : Mem) : Prop := ∀ p ∈ m, p.2 < WORD

end MM

namespace MM

set_option maxRecDepth 100000

theorem WORD_pos : 0 < WORD := by norm_num [WORD]

theorem NUM_HEAPS_int : (NUM_HEAPS : Int) = 21 := rfl

theorem load_store_same (m : Mem) (a v : Nat) : load (store m a v) a = v % WORD := by
  simp [load, store]

theorem load_store_ne (m : Mem) (a v b : Nat) (h : a ≠ b) :
    load (store m a v) b = load m b := by
  simp [load, store, h]

theorem memWF_store (m : Mem) (a v : Nat) (h : memWF m) : memWF (store m a v) := by
  intro q hq
  rcases List.mem_cons.mp hq with h1 | h1
  · subst h1
    exact Nat.mod_lt _ WORD_pos
  · exact h q h1

theorem load_lt_WORD (m : Mem) (h : memWF m) (a : Nat) : load m a < WORD := by
  induction m with
  | nil => exact WORD_pos
  | cons q rest ih =>
    obtain ⟨b, v⟩ := q
    simp only [load]
    split
    · exact h (b, v) (List.mem_cons_self _ _)
    · exact ih fun r hr => h r (List.mem_cons_of_mem _ hr)

theorem WORD_val : WORD = 18446744073709551616 := by norm_num [WORD]

instance decidableBallLTNat (n : Nat) (P : Nat → Prop) [DecidablePred P] :
    Decidable (∀ k, k < n → P k) :=
  Nat.decidableBallLT n fun k _ => P k

instance memWF_decidable (m : Mem) : Decidable (memWF m) :=
  inferInstanceAs (Decidable (∀ p ∈ m, p.2 < WORD))

theorem aAdd_eq (x y : Nat) (h : x + y < WORD) : aAdd x y = x + y := by
  unfold aAdd
  exact Nat.mod_eq_of_lt h

theorem aSub_eq (x y : Nat) (h1 : y ≤ x) (h2 : x < WORD) : aSub x y = x - y := by
  unfold aSub
  rw [WORD_val] at *
  omega

theorem getSize_le (v : Nat) : getSize v ≤ v := Nat.div_mul_le_self v WSIZE

theorem getSize_mod (v : Nat) : getSize v % WSIZE = 0 := by
  unfold getSize WSIZE
  omega

theorem getSize_of_mod (v : Nat) (h : v % WSIZE = 0) : getSize v = v := by
  unfold getSize
  unfold WSIZE at *
  omega

theorem pack_zero (s : Nat) : pack s 0 = s := Nat.or_zero s

theorem segScan_fail_frame (st : St) :
    ∀ (fuel : Nat) (i : Int), (segScan st i fuel).2 = none → (segScan st i fuel).1 = st := by
  intro fuel
  induction fuel with
  | zero => intro i _; rfl
  | succ n ih =>
    intro i h
    unfold segScan at h ⊢
    by_cases h1 : i < (NUM_HEAPS : Int)
    · rw [if_pos h1] at h ⊢
      by_cases h2 : st.buckets i ≠ 0
      · rw [if_pos h2] at h
        simp at h
      · rw [if_neg h2] at h ⊢
        exact ih _ h
    · rw [if_neg h1]

theorem segScan_cases (st : St) :
    ∀ (fuel : Nat) (i : Int), (NUM_HEAPS : Int) ≤ i + fuel →
    (segScan st i fuel = (st, none) ∧
      ∀ j : Int, i ≤ j → j < (NUM_HEAPS : Int) → st.buckets j = 0) ∨
    (∃ k : Int, i ≤ k ∧ k < (NUM_HEAPS : Int) ∧ st.buckets k ≠ 0 ∧
      (∀ j : Int, i ≤ j → j < k → st.buckets j = 0) ∧
      segScan st i fuel = ({ st with heapIndex := k }, some (st.buckets k))) := by
  intro fuel
  induction fuel with
  | zero =>
    intro i h
    rw [NUM_HEAPS_int] at h
    left
    refine ⟨rfl, fun j hj1 hj2 => ?_⟩
    rw [NUM_HEAPS_int] at hj2
    omega
  | succ n ih =>
    intro i h
    by_cases hlt : i < (NUM_HEAPS : Int)
    · by_cases hb : st.buckets i = 0
      · have hb2 : ¬st.buckets i ≠ 0 := not_ne_iff.mpr hb
        rcases ih (i + 1) (by omega) with ⟨h1, h2⟩ | ⟨k, hk1, hk2, hk3, hk4, hk5⟩
        · left
          constructor
          · unfold segScan
            rw [if_pos hlt, if_neg hb2]
            exact h1
          · intro j hj1 hj2
            rcases eq_or_lt_of_le hj1 with rfl | hj3
            · exact hb
            · exact h2 j (by omega) hj2
        · right
          refine ⟨k, by omega, hk2, hk3, fun j hj1 hj2 => ?_, ?_⟩
          · rcases eq_or_lt_of_le hj1 with rfl | hj3
            · exact hb
            · exact hk4 j (by omega) hj2
          · unfold segScan
            rw [if_pos hlt, if_neg hb2]
            exact hk5
      · right
        refine ⟨i, le_refl i, hlt, hb, fun j hj1 hj2 => by omega, ?_⟩
        unfold segScan
        rw [if_pos hlt, if_pos hb]
    · left
      refine ⟨?_, fun j hj1 hj2 => by omega⟩
      unfold segScan
      rw [if_neg hlt]

theorem find_q_congr {α : Type} (p q : α → Bool) (l : List α)
    (h : ∀ x ∈ l, p x = q x) : l.find? p = l.find? q := by
  induction l with
  | nil => rfl
  | cons a rest ih =>
    simp only [List.find?]
    rw [h a (List.mem_cons_self _ _)]
    split
    · rfl
    · exact ih fun x hx => h x (List.mem_cons_of_mem _ hx)

theorem intCast_of_lt (n : Nat) (h : n < 2 ^ 31) : intCast n = (n : Int) := by
  unfold intCast
  have h1 : n % 2 ^ 32 = n := Nat.mod_eq_of_lt (by omega)
  simp only [h1]
  rw [if_pos (by exact_mod_cast h)]

theorem cap_lt_int31 (i : Nat) (h : i < NUM_HEAPS) : 5 * WSIZE * 2 ^ i < 2 ^ 31 := by
  have h2 : (2 : Nat) ^ i ≤ 2 ^ 20 := Nat.pow_le_pow_right (by norm_num) (by
    unfold NUM_HEAPS at h
    omega)
  unfold WSIZE
  omega

theorem classLoop_eq_specBucketIdx (s : Nat) (hs : s < 2 ^ 31) :
    classLoop s = specBucketIdx s := by
  unfold classLoop specBucketIdx
  apply find_q_congr
  intro i hi
  have hi21 : i < NUM_HEAPS := by
    have := List.mem_range.mp hi
    exact this
  have hcap := cap_lt_int31 i hi21
  have hmod : 5 * WSIZE * 2 ^ i % WORD = 5 * WSIZE * 2 ^ i := by
    apply Nat.mod_eq_of_lt
    rw [WORD_val]
    omega
  rw [hmod]
  simp only [decide_eq_decide]
  rw [intCast_of_lt _ hcap, intCast_of_lt _ hs]
  exact_mod_cast Iff.rfl

theorem memWF_setByte (m : Mem) (a b : Nat) (h : memWF m) : memWF (setByte m a b) := by
  simp only [setByte]
  exact memWF_store _ _ _ h

theorem memWF_memcpy (m : Mem) (dst src : Nat) (h : memWF m) :
    ∀ n, memWF (memcpy m dst src n) := by
  intro n
  induction n with
  | zero => exact h
  | succ j ih =>
    simp only [memcpy]
    exact memWF_setByte _ _ _ ih

theorem byteAt_lt (m : Mem) (a : Nat) : byteAt m a < 2 ^ 8 :=
  Nat.mod_lt _ (by norm_num)

theorem load_setByte_word_ne (m : Mem) (a b w : Nat) (h : a / 8 * 8 ≠ w) :
    load (setByte m a b) w = load m w := by
  simp only [setByte]
  exact load_store_ne _ _ _ _ h

theorem byteAt_store_word_ne (m : Mem) (w v c : Nat) (h : w ≠ c / 8 * 8) :
    byteAt (store m w v) c = byteAt m c := by
  simp only [byteAt]
  rw [load_store_ne _ _ _ _ h]

theorem digit_update_bound (v b o : Nat) (hv : v < WORD) (ho : o < 8) :
    v % 2 ^ (8 * o) + b % 2 ^ 8 * 2 ^ (8 * o) +
      v / 2 ^ (8 * (o + 1)) * 2 ^ (8 * (o + 1)) < WORD := by
  rw [WORD_val] at *
  have hb : b % 2 ^ 8 < 2 ^ 8 := Nat.mod_lt _ (by norm_num)
  interval_cases o <;> omega

theorem digit_update_same (v b o : Nat) (hv : v < WORD) (ho : o < 8) :
    (v % 2 ^ (8 * o) + b % 2 ^ 8 * 2 ^ (8 * o) +
      v / 2 ^ (8 * (o + 1)) * 2 ^ (8 * (o + 1))) / 2 ^ (8 * o) % 2 ^ 8 = b % 2 ^ 8 := by
  rw [WORD_val] at hv
  have hb : b % 2 ^ 8 < 2 ^ 8 := Nat.mod_lt _ (by norm_num)
  interval_cases o <;> omega

theorem digit_update_ne (v b o o2 : Nat) (hv : v < WORD) (ho : o < 8) (ho2 : o2 < 8)
    (hne : o ≠ o2) :
    (v % 2 ^ (8 * o) + b % 2 ^ 8 * 2 ^ (8 * o) +
      v / 2 ^ (8 * (o + 1)) * 2 ^ (8 * (o + 1))) / 2 ^ (8 * o2) % 2 ^ 8 =
      v / 2 ^ (8 * o2) % 2 ^ 8 := by
  rw [WORD_val] at hv
  have hb : b % 2 ^ 8 < 2 ^ 8 := Nat.mod_lt _ (by norm_num)
  interval_cases o <;> interval_cases o2 <;> omega

theorem byteAt_setByte_same (m : Mem) (a b : Nat) (h : memWF m) :
    byteAt (setByte m a b) a = b % 2 ^ 8 := by
  have hv := load_lt_WORD m h (a / 8 * 8)
  have ho : a % 8 < 8 := Nat.mod_lt _ (by norm_num)
  simp only [byteAt, setByte]
  rw [load_store_same]
  rw [Nat.mod_eq_of_lt (digit_update_bound _ b _ hv ho)]
  exact digit_update_same _ b _ hv ho

theorem byteAt_setByte_ne (m : Mem) (a b c : Nat) (h : memWF m) (hne : a ≠ c) :
    byteAt (setByte m a b) c = byteAt m c := by
  by_cases hw : a / 8 * 8 = c / 8 * 8
  · have hoo : a % 8 ≠ c % 8 := by omega
    have hv := load_lt_WORD m h (a / 8 * 8)
    have ho : a % 8 < 8 := Nat.mod_lt _ (by norm_num)
    have ho2 : c % 8 < 8 := Nat.mod_lt _ (by norm_num)
    simp only [byteAt, setByte]
    rw [← hw, load_store_same]
    rw [Nat.mod_eq_of_lt (digit_update_bound _ b _ hv ho)]
    exact digit_update_ne _ b _ _ hv ho ho2 hoo
  · simp only [byteAt]
    rw [load_setByte_word_ne m a b _ hw]

theorem load_memcpy_outside (m : Mem) (dst src : Nat) :
    ∀ (n w : Nat), (∀ k, k < n → aAdd dst k / 8 * 8 ≠ w) →
      load (memcpy m dst src n) w = load m w := by
  intro n
  induction n with
  | zero => intro w _; rfl
  | succ j ih =>
    intro w hout
    simp only [memcpy]
    rw [load_setByte_word_ne _ _ _ _ (hout j (by omega))]
    exact ih w fun k hk => hout k (by omega)

theorem byteAt_memcpy_outside (m : Mem) (dst src : Nat) (h : memWF m) :
    ∀ (n c : Nat), (∀ k, k < n → aAdd dst k ≠ c) →
      byteAt (memcpy m dst src n) c = byteAt m c := by
  intro n
  induction n with
  | zero => intro c _; rfl
  | succ j ih =>
    intro c hout
    simp only [memcpy]
    rw [byteAt_setByte_ne _ _ _ _ (memWF_memcpy m dst src h j) (hout j (by omega))]
    exact ih c fun k hk => hout k (by omega)

theorem byteAt_memcpy_copies (m : Mem) (dst src : Nat) (hWF : memWF m) :
    ∀ n, dst + n < WORD → src + n < WORD →
      (∀ k j : Nat, k < n → j < n → dst + k ≠ src + j) →
      ∀ k, k < n → byteAt (memcpy m dst src n) (dst + k) = byteAt m (src + k) := by
  intro n
  induction n with
  | zero => intro _ _ _ k hk; exact absurd hk (by omega)
  | succ j ih =>
    intro hdb hsb hdisj k hk
    simp only [memcpy]
    have hWFj : memWF (memcpy m dst src j) := memWF_memcpy m dst src hWF j
    rw [aAdd_eq dst j (by omega), aAdd_eq src j (by omega)]
    by_cases hkj : k = j
    · subst hkj
      rw [byteAt_setByte_same _ _ _ hWFj]
      rw [Nat.mod_eq_of_lt (byteAt_lt _ _)]
      exact byteAt_memcpy_outside m dst src hWF k (src + k) fun i hi => by
        rw [aAdd_eq dst i (by omega)]
        exact hdisj i k (by omega) (by omega)
    · have hlt : k < j := by omega
      rw [byteAt_setByte_ne _ _ _ _ hWFj (by omega)]
      exact ih (by omega) (by omega)
        (fun a b ha hb => hdisj a b (by omega) (by omega)) k hlt

theorem mmFree_explicit (st : St) (p S : Nat)
    (hS : blkSize st.mem p = S) (hSmod : S % WSIZE = 0) (hSlt : S < WORD)
    (hS40 : 5 * WSIZE ≤ S) (hp8 : WSIZE ≤ p) (hpS : p + S < WORD) :
    mmFree st (some p) =
      { st with
        mem :=
          (let q := st.buckets (freeBucketIdx S)
           let m4 := store (store (store (store st.mem (p - WSIZE) S)
             (p + S - DSIZE) S) (p + S - 4 * WSIZE) 0) (p + S - 3 * WSIZE) q
           if q ≠ 0 then store m4 (prevPtrA m4 q) p else m4)
        heapIndex := freeBucketIdx S
        buckets := fun j => if j = freeBucketIdx S then p else st.buckets j } := by
  have hW8 : WSIZE = 8 := rfl
  have hD16 : DSIZE = 16 := rfl
  have hWv : WORD = 2 ^ 64 := rfl
  have hS8 : S % 8 = 0 := hSmod
  have hS40n : 40 ≤ S := hS40
  have hp8n : 8 ≤ p := hp8
  have hpSn : p + S < 2 ^ 64 := hpS
  have hSn : S < 2 ^ 64 := hSlt
  have e1 : hdrp p = p - 8 := by
    unfold hdrp
    rw [hW8]
    exact aSub_eq p 8 hp8n (by rw [hWv]; omega)
  have hm1 : load (store st.mem (p - 8) S) (p - 8) = S := by
    rw [load_store_same]
    exact Nat.mod_eq_of_lt hSlt
  have hgS : getSize S = S := getSize_of_mod S hSmod
  have ha1 : aAdd p S = p + S := aAdd_eq _ _ hpS
  have hf1 : ftrp (store st.mem (p - 8) S) p = p + S - 16 := by
    unfold ftrp blkSize
    rw [e1, hm1, hgS, ha1, hD16]
    exact aSub_eq _ _ (by omega) hpS
  have hm2 : load (store (store st.mem (p - 8) S) (p + S - 16) S) (p - 8) = S := by
    rw [load_store_ne _ _ _ _ (by omega), hm1]
  have hf2 : prevPtrA (store (store st.mem (p - 8) S) (p + S - 16) S) p =
      p + S - 32 := by
    unfold prevPtrA ftrp blkSize
    rw [e1, hm2, hgS, ha1, hD16, hW8]
    rw [aSub_eq _ _ (by omega) hpS]
    rw [aSub_eq _ _ (by omega) (by rw [hWv]; omega)]
    omega
  have hm3 : load (store (store (store st.mem (p - 8) S) (p + S - 16) S)
      (p + S - 32) 0) (p - 8) = S := by
    rw [load_store_ne _ _ _ _ (by omega), hm2]
  have hf3 : nextPtrA (store (store (store st.mem (p - 8) S) (p + S - 16) S)
      (p + S - 32) 0) p = p + S - 24 := by
    unfold nextPtrA ftrp blkSize
    rw [e1, hm3, hgS, ha1, hD16, hW8]
    rw [aSub_eq _ _ (by omega) hpS]
    rw [aSub_eq _ _ (by omega) (by rw [hWv]; omega)]
    omega
  simp only [mmFree, hS, pack_zero, hW8, hD16, e1, hm1, hf1, hf2, hf3]

theorem memSbrk_fail_frame (st : St) (n : Nat) (st1 : St)
    (h : memSbrk st n = (st1, none)) : st1 = st := by
  unfold memSbrk at h
  split at h
  · injection h with h1 h2
    exact h1.symm
  · injection h with h1 h2
    exact absurd h2 (by simp)

theorem extendHeap_fail_frame (st : St) (w : Nat)
    (h : (extendHeap st w).2 = none) : (extendHeap st w).1 = st := by
  simp only [extendHeap] at h ⊢
  rcases hsb : memSbrk st ((if w % 2 = 1 then (w + 1) * WSIZE else w * WSIZE) % WORD)
    with ⟨st1, r⟩
  cases r with
  | none =>
    simp only [hsb]
    exact memSbrk_fail_frame _ _ _ hsb
  | some bp =>
    rw [hsb] at h
    simp at h

theorem findFit_fail_frame (st : St) (a : Nat) (h : (findFit st a).2 = none) :
    (findFit st a).1 = st :=
  segScan_fail_frame st _ _ h

theorem mallocSearch_fail_frame (st : St) (a e : Nat)
    (h : (mallocSearch st a e).2 = none) : (mallocSearch st a e).1 = st := by
  unfold mallocSearch at h ⊢
  rcases hff : findFit st a with ⟨st1, r1⟩
  cases r1 with
  | some bp =>
    rw [hff] at h
    exact Option.noConfusion h
  | none =>
    rw [hff] at h
    have hst1 : st1 = st := by
      have h2 := findFit_fail_frame st a (by rw [hff])
      rw [hff] at h2
      exact h2
    replace h : (match extendHeap st1 (e / WSIZE) with
      | (st2, none) => (st2, none)
      | (st2, some bp) => (place st2 bp a, some bp)).2 = none := h
    show (match extendHeap st1 (e / WSIZE) with
      | (st2, none) => (st2, none)
      | (st2, some bp) => (place st2 bp a, some bp)).1 = st
    rcases heh : extendHeap st1 (e / WSIZE) with ⟨st2, r2⟩
    rw [heh] at h
    cases r2 with
    | some bp => exact Option.noConfusion h
    | none =>
      have hst2 : st2 = st1 := by
        have h2 := extendHeap_fail_frame st1 (e / WSIZE) (by rw [heh])
        rw [heh] at h2
        exact h2
      exact hst2.trans hst1

theorem mmMalloc_fail_state (st : St) (size : Nat) (h : (mmMalloc st size).2 = none) :
    ∃ hi : Int, (mmMalloc st size).1 = { st with heapIndex := hi } := by
  simp only [mmMalloc] at h ⊢
  by_cases hz : size = 0
  · rw [if_pos hz] at h ⊢
    exact ⟨-1, rfl⟩
  · rw [if_neg hz] at h ⊢
    rcases hcl : classLoop (adjustSize size) with _ | i
    · rw [hcl] at h
      refine ⟨-1, ?_⟩
      exact mallocSearch_fail_frame { st with heapIndex := -1 } (adjustSize size)
        (adjustSize size) h
    · rw [hcl] at h
      refine ⟨(i : Int), ?_⟩
      exact mallocSearch_fail_frame { st with heapIndex := (i : Int) } (adjustSize size)
        (5 * WSIZE * 2 ^ i) h

/-- The copy path of `mm_realloc` (`mm.c` lines 269-284) in explicit form:
after a successful fresh allocation, the result is `mm_free` of the state
whose memory has `min(GET_SIZE(HDRP(ptr)), size)` bytes copied from `ptr`
to the fresh block. -/
theorem realloc_step (st st1 : St) (p newp size : Nat)
    (hsz : size ≠ 0)
    (hmal : mmMalloc st size = (st1, some newp)) :
    mmRealloc st (some p) size =
      (mmFree { st1 with mem := memcpy st1.mem newp p (if size < blkSize st1.mem p then size else blkSize st1.mem p) } (some p),
       some newp) := by
  unfold mmRealloc
  rw [if_neg hsz]
  simp only [hmal]


/-- Claim C2: for an allocated pointer `p` (block size `S`) and nonzero
`size` for which the internal fresh allocation succeeds, returning a fresh
block `newp` that is disjoint from the old block and from the head of the
bucket that will receive the old block (hypotheses `hpres`, `hdisj`, `hq`
spell out this freshness), `reallocate(p, size)` returns `newp`, the first
`min(old payload size, size)` bytes of the new block equal the old block's
payload bytes byte for byte (payload size = `S - DSIZE`; the code copies
`min(S, size)` bytes, which covers them), and the old block is then
released: its header is rewritten free with size `S` and it becomes the
head of its receiving bucket. -/
theorem realloc_copies_min_bytes_and_frees_old (st st1 : St) (p newp size S : Nat)
    (hWF : memWF st.mem) (hWF1 : memWF st1.mem)
    (hsz : size ≠ 0)
    (hmal : mmMalloc st size = (st1, some newp))
    (hS : blkSize st.mem p = S)
    (hS40 : 5 * WSIZE ≤ S) (hp8 : WSIZE ≤ p) (hpS : p + S < WORD)
    (hnp8 : WSIZE ≤ newp) (hnpb : newp + size + WSIZE < WORD)
    (hpres : ∀ k, k < S + WSIZE → load st1.mem (p - WSIZE + k) = load st.mem (p - WSIZE + k))
    (hdisj : p + S + WSIZE ≤ newp ∨ newp + size + WSIZE ≤ p)
    (hq : st1.buckets (freeBucketIdx S) = 0 ∨
      (4 * WSIZE ≤ blkSize st1.mem (st1.buckets (freeBucketIdx S)) ∧
       WSIZE ≤ st1.buckets (freeBucketIdx S) ∧
       st1.buckets (freeBucketIdx S) + blkSize st1.mem (st1.buckets (freeBucketIdx S)) < WORD ∧
       (st1.buckets (freeBucketIdx S) + blkSize st1.mem (st1.buckets (freeBucketIdx S)) ≤ p ∨
        p + S ≤ st1.buckets (freeBucketIdx S)) ∧
       (st1.buckets (freeBucketIdx S) + blkSize st1.mem (st1.buckets (freeBucketIdx S)) ≤ newp ∨
        newp + size + WSIZE ≤ st1.buckets (freeBucketIdx S)))) :
    (mmRealloc st (some p) size).2 = some newp ∧
    (∀ k, k < min (S - DSIZE) size →
      byteAt (mmRealloc st (some p) size).1.mem (newp + k) = byteAt st.mem (p + k)) ∧
    load (mmRealloc st (some p) size).1.mem (p - WSIZE) = S ∧
    getAlloc (load (mmRealloc st (some p) size).1.mem (p - WSIZE)) = 0 ∧
    (mmRealloc st (some p) size).1.buckets (freeBucketIdx S) = p ∧
    (mmRealloc st (some p) size).1.heapIndex = freeBucketIdx S := by
  -- numeric bookkeeping
  have hW8 : WSIZE = 8 := rfl
  have hD16 : DSIZE = 16 := rfl
  have hWv : WORD = 2 ^ 64 := rfl
  have hSmod : S % WSIZE = 0 := by rw [← hS]; exact getSize_mod _
  have hSlt : S < WORD := by
    rw [← hS]
    exact lt_of_le_of_lt (getSize_le _) (load_lt_WORD _ hWF _)
  have hS8 : S % 8 = 0 := hSmod
  have hS40n : 40 ≤ S := hS40
  have hp8n : 8 ≤ p := hp8
  have hnp8n : 8 ≤ newp := hnp8
  have hpSn : p + S < 2 ^ 64 := hpS
  have hnpbn : newp + size + 8 < 2 ^ 64 := hnpb
  have hSn : S < 2 ^ 64 := hSlt
  have hdisjn : p + S + 8 ≤ newp ∨ newp + size + 8 ≤ p := hdisj
  have e1 : hdrp p = p - 8 := by
    unfold hdrp
    rw [hW8]
    exact aSub_eq p 8 hp8n (by rw [hWv]; omega)
  -- the old header survives the fresh allocation
  have hpres2 : ∀ w, p - 8 ≤ w → w < p + S → load st1.mem w = load st.mem w := by
    intro w h1 h2
    have h3 := hpres (w - (p - 8)) (by rw [hW8]; omega)
    rw [hW8] at h3
    rwa [show p - 8 + (w - (p - 8)) = w by omega] at h3
  have hS1 : blkSize st1.mem p = S := by
    unfold blkSize at hS ⊢
    rw [e1] at hS ⊢
    rw [hpres2 (p - 8) (le_refl _) (by omega)]
    exact hS
  -- the byte count the code copies
  have hstep := realloc_step st st1 p newp size hsz hmal
  rw [hS1] at hstep
  -- facts about the copied byte count
  have hnS : (if size < S then size else S) ≤ S := by split <;> omega
  have hnsize : (if size < S then size else S) ≤ size := by split <;> omega
  have hmin : min (S - DSIZE) size ≤ (if size < S then size else S) := by
    rw [hD16]
    rcases Nat.lt_or_ge size S with h | h
    · rw [if_pos h]; omega
    · rw [if_neg (by omega)]; omega
  -- loads outside the copy region are untouched by memcpy
  have hout : ∀ w, w + 8 ≤ newp ∨ newp + size ≤ w →
      load (memcpy st1.mem newp p (if size < S then size else S)) w = load st1.mem w := by
    intro w hw
    apply load_memcpy_outside
    intro k hk
    rw [aAdd_eq newp k (by omega)]
    have hb1 : (newp + k) / 8 * 8 ≤ newp + k := by omega
    have hb2 : newp + k ≤ (newp + k) / 8 * 8 + 7 := by omega
    omega
  -- bytes outside the copy region are untouched by memcpy
  have hbout : ∀ c, c + 1 ≤ newp ∨ newp + size ≤ c →
      byteAt (memcpy st1.mem newp p (if size < S then size else S)) c = byteAt st1.mem c := by
    intro c hc
    apply byteAt_memcpy_outside _ _ _ hWF1
    intro k hk
    rw [aAdd_eq newp k (by omega)]
    omega
  -- the copied bytes themselves
  have hcopy : ∀ k, k < (if size < S then size else S) →
      byteAt (memcpy st1.mem newp p (if size < S then size else S)) (newp + k) =
        byteAt st1.mem (p + k) := by
    apply byteAt_memcpy_copies st1.mem newp p hWF1 _ (by omega) (by omega)
    intro k j hk hj
    omega
  -- the freed block's header as memcpy leaves it
  have hS2 : blkSize { st1 with mem := memcpy st1.mem newp p (if size < S then size else S) }.mem p = S := by
    show blkSize (memcpy st1.mem newp p (if size < S then size else S)) p = S
    unfold blkSize
    rw [e1, hout (p - 8) (by omega)]
    unfold blkSize at hS1
    rw [e1] at hS1
    exact hS1
  have hfree := mmFree_explicit { st1 with mem := memcpy st1.mem newp p (if size < S then size else S) }
    p S hS2 hSmod hSlt hS40 hp8 hpS
  rw [hfree] at hstep
  rw [hstep]
  dsimp only
  simp only [hW8, hD16]
  have h4hdr : load (store (store (store (store (memcpy st1.mem newp p (if size < S then size else S)) (p - 8) S) (p + S - 16) S) (p + S - 32) 0) (p + S - 24) (st1.buckets (freeBucketIdx S))) (p - 8) = S := by
    rw [load_store_ne _ _ _ _ (by omega), load_store_ne _ _ _ _ (by omega),
      load_store_ne _ _ _ _ (by omega), load_store_same]
    exact Nat.mod_eq_of_lt hSlt
  have hb4 : ∀ k, k < min (S - 16) size →
      byteAt (store (store (store (store (memcpy st1.mem newp p (if size < S then size else S)) (p - 8) S) (p + S - 16) S) (p + S - 32) 0) (p + S - 24) (st1.buckets (freeBucketIdx S))) (newp + k) = byteAt st.mem (p + k) := by
    intro k hk
    have hkn : k < (if size < S then size else S) := lt_of_lt_of_le hk hmin
    rw [byteAt_store_word_ne _ _ _ _ (by omega), byteAt_store_word_ne _ _ _ _ (by omega),
      byteAt_store_word_ne _ _ _ _ (by omega), byteAt_store_word_ne _ _ _ _ (by omega)]
    rw [hcopy k hkn]
    unfold byteAt
    rw [hpres2 ((p + k) / 8 * 8) (by omega) (by omega)]
  by_cases hq0 : st1.buckets (freeBucketIdx S) = 0
  · rw [if_neg (not_ne_iff.mpr hq0)]
    refine ⟨trivial, hb4, h4hdr, ?_, by simp, trivial⟩
    rw [h4hdr]
    unfold getAlloc
    omega
  · rcases hq.resolve_left hq0 with ⟨hSq32, hq8, hqW, hqold, hqnew⟩
    have hSq32n : 32 ≤ blkSize st1.mem (st1.buckets (freeBucketIdx S)) := hSq32
    have hq8n : 8 ≤ st1.buckets (freeBucketIdx S) := hq8
    have hqWn : st1.buckets (freeBucketIdx S) + blkSize st1.mem (st1.buckets (freeBucketIdx S)) < 2 ^ 64 := hqW
    have hqoldn : st1.buckets (freeBucketIdx S) + blkSize st1.mem (st1.buckets (freeBucketIdx S)) ≤ p ∨ p + S ≤ st1.buckets (freeBucketIdx S) := hqold
    have hqnewn : st1.buckets (freeBucketIdx S) + blkSize st1.mem (st1.buckets (freeBucketIdx S)) ≤ newp ∨ newp + size + 8 ≤ st1.buckets (freeBucketIdx S) := hqnew
    have hqhd2 : hdrp (st1.buckets (freeBucketIdx S)) = st1.buckets (freeBucketIdx S) - 8 := by
      unfold hdrp
      rw [hW8]
      exact aSub_eq _ _ hq8n (by rw [hWv]; omega)
    have hqhdr : load (store (store (store (store (memcpy st1.mem newp p (if size < S then size else S)) (p - 8) S) (p + S - 16) S) (p + S - 32) 0) (p + S - 24) (st1.buckets (freeBucketIdx S))) (st1.buckets (freeBucketIdx S) - 8) = load st1.mem (st1.buckets (freeBucketIdx S) - 8) := by
      rw [load_store_ne _ _ _ _ (by omega), load_store_ne _ _ _ _ (by omega),
        load_store_ne _ _ _ _ (by omega), load_store_ne _ _ _ _ (by omega)]
      exact hout _ (by omega)
    have hbq : blkSize (store (store (store (store (memcpy st1.mem newp p (if size < S then size else S)) (p - 8) S) (p + S - 16) S) (p + S - 32) 0) (p + S - 24) (st1.buckets (freeBucketIdx S))) (st1.buckets (freeBucketIdx S)) = blkSize st1.mem (st1.buckets (freeBucketIdx S)) := by
      unfold blkSize
      rw [hqhd2, hqhdr]
    have hA5 : prevPtrA (store (store (store (store (memcpy st1.mem newp p (if size < S then size else S)) (p - 8) S) (p + S - 16) S) (p + S - 32) 0) (p + S - 24) (st1.buckets (freeBucketIdx S))) (st1.buckets (freeBucketIdx S)) = st1.buckets (freeBucketIdx S) + blkSize st1.mem (st1.buckets (freeBucketIdx S)) - 32 := by
      unfold prevPtrA ftrp
      rw [hbq]
      rw [aAdd_eq _ _ hqW]
      rw [hD16, hW8]
      rw [aSub_eq (st1.buckets (freeBucketIdx S) + blkSize st1.mem (st1.buckets (freeBucketIdx S))) 16 (by omega) (by rw [hWv]; omega)]
      rw [aSub_eq _ _ (by omega) (by rw [hWv]; omega)]
      omega
    rw [if_pos hq0, hA5]
    refine ⟨trivial, ?_, ?_, ?_, by simp, trivial⟩
    · intro k hk
      rw [byteAt_store_word_ne _ _ _ _ (by omega)]
      exact hb4 k hk
    · rw [load_store_ne _ _ _ _ (by omega)]
      exact h4hdr
    · rw [load_store_ne _ _ _ _ (by omega), h4hdr]
      unfold getAlloc
      omega

/-- Witness for `realloc_copies_min_bytes_and_frees_old`: reallocating the
160-byte block at 8552 to 24 bytes on the heap `stM`; the fresh block is
4536. -/
theorem realloc_copies_min_bytes_witness :
    (mmRealloc stM (some 8552) 24).2 = some 4536 :=
  (realloc_copies_min_bytes_and_frees_old stM (mmMalloc stM 24).1 8552 4536 24 160
    (by decide) (by decide) (by decide)
    (by
      have h2 : (mmMalloc stM 24).2 = some 4536 := by decide
      rw [← h2])
    (by decide) (by decide) (by decide) (by decide) (by decide) (by decide)
    (by decide) (by decide) (by decide)).1

/-- Claim C10 (counterexample): on the reachable heap `stM` (cursor 2) the
call `reallocate(8552, 2000)` fails to allocate (the arena is exhausted),
returns null, but does not leave the heap state completely unchanged: the
class cursor moves from 2 to 6. -/
theorem realloc_fail_moves_cursor :
    (mmRealloc stM (some 8552) 2000).2 = none ∧
    stM.heapIndex = 2 ∧
    (mmRealloc stM (some 8552) 2000).1.heapIndex = 6 ∧
    (mmRealloc stM (some 8552) 2000).1 ≠ stM := by
  refine ⟨by decide, by decide, by decide, ?_⟩
  intro h
  exact absurd (congrArg St.heapIndex h) (by decide)

/-- Claim C10 (amended): when the internal fresh allocation inside
`reallocate(ptr, size)` fails (nonzero size, non-null pointer), the call
returns null and leaves the arena contents, the bucket-head array, the arena
cursor `brk`, and `last_bp` unchanged — in particular the old block and its
payload are intact — with the class cursor `heap_index` as the only changed
component of the state. -/
theorem realloc_fail_returns_null_frame (st : St) (p size : Nat)
    (hsz : size ≠ 0) (h : (mmMalloc st size).2 = none) :
    mmRealloc st (some p) size = ((mmMalloc st size).1, none) ∧
    (mmMalloc st size).1.mem = st.mem ∧
    (mmMalloc st size).1.buckets = st.buckets ∧
    (mmMalloc st size).1.brk = st.brk ∧
    (mmMalloc st size).1.lastBp = st.lastBp ∧
    (mmMalloc st size).1.heapListp = st.heapListp := by
  obtain ⟨hi, hst⟩ := mmMalloc_fail_state st size h
  refine ⟨?_, by rw [hst], by rw [hst], by rw [hst], by rw [hst], by rw [hst]⟩
  unfold mmRealloc
  rw [if_neg hsz]
  rcases hm : mmMalloc st size with ⟨st1, r⟩
  rw [hm] at h
  cases r with
  | none => rfl
  | some q => exact Option.noConfusion h

/-- Witness for `realloc_fail_returns_null_frame`: the failing reallocation
of the 160-byte block at 8552 to 2000 bytes on the heap `stM`. -/
theorem realloc_fail_returns_null_frame_witness :
    mmRealloc stM (some 8552) 2000 = ((mmMalloc stM 2000).1, none) :=
  (realloc_fail_returns_null_frame stM 8552 2000 (by decide) (by decide)).1

/-- Claim C4 (amended): `find_fit(asize)`, started with the class cursor at
`c`, either reports no fit with all buckets from `c` up empty and the state
untouched, or returns the head of the first non-empty bucket `k ≥ c`,
advancing the cursor to `k`; and when every non-empty bucket head carries at
least its nominal class capacity and class `c` qualifies for `asize`
(`asize < 5*WSIZE*2^c`), the returned block has size at least `asize`.
(The unguarded rule can start the scan at a non-qualifying class for huge
adjusted sizes, in which case the returned head may be smaller than `asize`,
and `place` can file split remainders under the request class rather than
the remainder class, so the capacity guarantee is conditional, not
structural.) -/
theorem find_fit_first_nonempty_bucket (st : St) (asize c : Nat)
    (hc : st.heapIndex = (c : Int)) (hc21 : c ≤ NUM_HEAPS)
    (hsizes : ∀ i : Nat, i < NUM_HEAPS → st.buckets (i : Int) ≠ 0 →
      5 * WSIZE * 2 ^ i ≤ blkSize st.mem (st.buckets (i : Int)))
    (hcap : asize < 5 * WSIZE * 2 ^ c) :
    (findFit st asize = (st, none) ∧
      ∀ j : Nat, c ≤ j → j < NUM_HEAPS → st.buckets (j : Int) = 0) ∨
    (∃ k : Nat, c ≤ k ∧ k < NUM_HEAPS ∧ st.buckets (k : Int) ≠ 0 ∧
      (∀ j : Nat, c ≤ j → j < k → st.buckets (j : Int) = 0) ∧
      findFit st asize = ({ st with heapIndex := (k : Int) }, some (st.buckets (k : Int))) ∧
      asize ≤ blkSize st.mem (st.buckets (k : Int))) := by
  have hc21n : c ≤ 21 := hc21
  have hfit : findFit st asize =
      segScan st st.heapIndex ((NUM_HEAPS : Int) + 1 - st.heapIndex).toNat := rfl
  rw [hc] at hfit
  rcases segScan_cases st ((NUM_HEAPS : Int) + 1 - (c : Int)).toNat (c : Int)
      (by rw [NUM_HEAPS_int]; omega) with ⟨heq, hall⟩ | ⟨k, hk1, hk2, hk3, hk4, hk5⟩
  · left
    refine ⟨hfit.trans heq, fun j hj1 hj2 => ?_⟩
    exact hall (j : Int) (by exact_mod_cast hj1) (by exact_mod_cast hj2)
  · right
    have hk0 : 0 ≤ k := le_trans (by exact_mod_cast Nat.zero_le c) hk1
    have hkn : ((k.toNat : Int)) = k := Int.toNat_of_nonneg hk0
    refine ⟨k.toNat, ?_, ?_, ?_, ?_, ?_, ?_⟩
    · exact_mod_cast hkn ▸ hk1
    · have : (k.toNat : Int) < (NUM_HEAPS : Int) := hkn ▸ hk2
      exact_mod_cast this
    · rw [hkn]; exact hk3
    · intro j hj1 hj2
      refine hk4 (j : Int) (by exact_mod_cast hj1) ?_
      rw [← hkn]
      exact_mod_cast hj2
    · rw [hkn]; exact hfit.trans hk5
    · have hkk : k.toNat < NUM_HEAPS := by
        have : (k.toNat : Int) < (NUM_HEAPS : Int) := hkn ▸ hk2
        exact_mod_cast this
      have hs := hsizes k.toNat hkk (by rw [hkn]; exact hk3)
      have hck : c ≤ k.toNat := by
        have : ((c : Nat) : Int) ≤ (k.toNat : Int) := hkn ▸ hk1
        exact_mod_cast this
      have hmono : 5 * WSIZE * 2 ^ c ≤ 5 * WSIZE * 2 ^ k.toNat :=
        Nat.mul_le_mul_left _ (Nat.pow_le_pow_right (by norm_num) hck)
      omega

/-- Witness for `find_fit_first_nonempty_bucket`: the fresh heap `st0` with
cursor 0 and adjusted size 39. -/
theorem find_fit_first_nonempty_bucket_witness :
    (findFit st0 39 = (st0, none) ∧
      ∀ j : Nat, 0 ≤ j → j < NUM_HEAPS → st0.buckets (j : Int) = 0) ∨
    (∃ k : Nat, 0 ≤ k ∧ k < NUM_HEAPS ∧ st0.buckets (k : Int) ≠ 0 ∧
      (∀ j : Nat, 0 ≤ j → j < k → st0.buckets (j : Int) = 0) ∧
      findFit st0 39 = ({ st0 with heapIndex := (k : Int) }, some (st0.buckets (k : Int))) ∧
      39 ≤ blkSize st0.mem (st0.buckets (k : Int))) :=
  find_fit_first_nonempty_bucket st0 39 0 (by decide) (by decide)
    (by decide) (by decide)

/-- Claim C3 (amended): for a block whose current size `S` (below 2^31) has
`j` as the smallest class index whose nominal capacity strictly exceeds `S`,
`release` inserts the block at the head of bucket `j - 1` — one less than
the rule index — leaves every other bucket head unchanged, and sets the
cursor to `j - 1`; `allocate` uses the undecremented rule (`classLoop`,
identical to the spec rule for such sizes) for its search class. -/
theorem free_inserts_at_rule_index_minus_one (st : St) (p S j : Nat)
    (hS : blkSize st.mem p = S) (hs31 : S < 2 ^ 31)
    (hj : specBucketIdx S = some j) :
    classLoop S = some j ∧
    (mmFree st (some p)).heapIndex = (j : Int) - 1 ∧
    (mmFree st (some p)).buckets ((j : Int) - 1) = p ∧
    ∀ i : Int, i ≠ (j : Int) - 1 → (mmFree st (some p)).buckets i = st.buckets i := by
  have hcl : classLoop S = some j := (classLoop_eq_specBucketIdx S hs31).trans hj
  have hfb : freeBucketIdx S = (j : Int) - 1 := by
    unfold freeBucketIdx
    rw [hcl]
  refine ⟨hcl, ?_, ?_, ?_⟩
  · simp only [mmFree, hS, hfb]
  · simp [mmFree, hS, hfb]
  · intro i hi
    simp only [mmFree, hS, hfb, if_neg hi]

/-- Witness for `free_inserts_at_rule_index_minus_one`: releasing the
160-byte block at 8552 on the heap `stM`; the rule index of 160 is 3, the
receiving bucket is 2. -/
theorem free_inserts_at_rule_index_minus_one_witness :
    (mmFree stM (some 8552)).buckets ((3 : Nat) - 1 : Int) = 8552 :=
  (free_inserts_at_rule_index_minus_one stM 8552 160 3 (by decide) (by decide)
    (by decide)).2.2.1

/-- Claim C5: starting from a freshly initialized heap, `allocate(100)`
returns `P1 = 8552`; after `release(P1)`, the next `allocate(100)` returns
the same pointer `P2 = P1`, with no arena growth (`brk` unchanged). -/
theorem allocate_free_allocate_reuses_block :
    (mmMalloc st0 100).2 = some 8552 ∧
    (mmMalloc (mmFree stM (some 8552)) 100).2 = some 8552 ∧
    (mmMalloc (mmFree stM (some 8552)) 100).1.brk = (mmFree stM (some 8552)).brk := by
  refine ⟨by decide, by decide, by decide⟩

/-- Claim C1: after `init`; `allocate(100) -> 8552`; `allocate(100) -> 8392`;
`release(8552)`; `release(8392)`, the physically adjacent blocks 8392 and
8552 (the latter is `NEXT_BLKP` of the former) are both free: `mm_free`
inserts without coalescing (the `coalesce` call at `mm.c` line 226 is
commented out), violating the no-adjacent-free invariant. -/
theorem adjacent_free_blocks_after_release :
    (mmMalloc stM 100).2 = some 8392 ∧
    nextBlkp stRel.mem 8392 = 8552 ∧
    adjacentBothFree stRel 8392 := by
  refine ⟨by decide, by decide, by decide, by decide, by decide, by decide⟩

/-- Claim C6 (counterexample): after a successful `init()`, `allocate(100)`
returns the pointer 8552, which is not double-word aligned: 8552 is not a
multiple of `DSIZE = 16` (the minimum block size of 5 words makes payload
addresses alternate between the two word parities). -/
theorem first_allocation_not_dword_aligned :
    (mmInit stInit).2 = 0 ∧
    (mmMalloc st0 100).2 = some 8552 ∧
    ¬(8552 % DSIZE = 0) := by
  refine ⟨by decide, by decide, by decide⟩

/-- Claim C6 (amended): after a successful `init()`, `allocate(100)` returns
a non-null pointer that is word aligned (a multiple of `WSIZE`), and the
consistency checker reports no errors on the resulting heap. -/
theorem first_allocation_word_aligned_checker_clean :
    (mmInit stInit).2 = 0 ∧
    (mmMalloc st0 100).2 = some 8552 ∧
    8552 % WSIZE = 0 ∧
    checkheapErrs stM 100 = [] := by
  refine ⟨by decide, by decide, by decide, by decide⟩

/-- Claim C9: the boundary-tag invariant holds on the fresh heap, but the
reachable call `mm_malloc(2^64 - 472)` (a single allocate on the initialized
heap) makes `place` wrap its size arithmetic, overwrite the epilogue word at
address 24 with a huge boundary tag, and leave a traversed block whose header
and footer words differ. -/
theorem huge_request_breaks_boundary_tags :
    hdrFtrOk st0 10 = true ∧
    (mmMalloc st0 (2 ^ 64 - 472)).2 = some 480 ∧
    hdrFtrOk (mmMalloc st0 (2 ^ 64 - 472)).1 10 = false := by
  refine ⟨by decide, by decide, by decide⟩

/-- Claim C4 (counterexample): 2^64 - 440 is the adjusted size of the request
2^64 - 472, and on the freshly initialized heap (cursor 0) `find_fit` returns
the head 480 of bucket 0, a block of size 40 < 2^64 - 440: membership in the
scanned bucket does not guarantee capacity for this adjusted request size. -/
theorem find_fit_returns_undersized_block :
    adjustSize (2 ^ 64 - 472) = 2 ^ 64 - 440 ∧
    st0.heapIndex = 0 ∧
    (findFit st0 (2 ^ 64 - 440)).2 = some 480 ∧
    blkSize st0.mem 480 = 40 ∧
    ¬(2 ^ 64 - 440 ≤ 40) := by
  refine ⟨by decide, by decide, by decide, by decide, by decide⟩

/-- Claim C3 (counterexample): the block at 8552 has size 160; the spec rule
(smallest class whose capacity strictly exceeds 160) gives class 3, but
`mm_free` inserts the block at the head of bucket 2, leaving bucket 3 with
its old head 12328. -/
theorem free_inserts_one_class_below_spec_rule :
    blkSize stM.mem 8552 = 160 ∧
    specBucketIdx 160 = some 3 ∧
    (mmFree stM (some 8552)).buckets 2 = 8552 ∧
    (mmFree stM (some 8552)).buckets 3 = 12328 ∧
    ¬((12328 : Nat) = 8552) := by
  refine ⟨by decide, by decide, by decide, by decide, by decide⟩

/-- Claim C7: `reallocate(ptr, 0)` has exactly the effect of `release(ptr)`
and returns null, and `reallocate(null, size)` is exactly `allocate(size)`,
state and result. -/
theorem realloc_zero_is_free_and_realloc_null_is_malloc :
    (∀ (st : St) (ptr : Option Nat), mmRealloc st ptr 0 = (mmFree st ptr, none)) ∧
    (∀ (st : St) (size : Nat), mmRealloc st none size = mmMalloc st size) := by
  constructor
  · intro st ptr
    rfl
  · intro st size
    cases size with
    | zero => rfl
    | succ n => rfl

/-- Claim C8 (counterexample): on the reachable heap `stM` the class cursor
is 2; `allocate(0)` returns null but resets the cursor to -1, and
`release(null)` does the same, so neither leaves the entire heap state
unchanged. -/
theorem alloc_zero_and_free_null_clobber_cursor :
    (mmMalloc stM 0).2 = none ∧
    stM.heapIndex = 2 ∧
    (mmMalloc stM 0).1.heapIndex = -1 ∧
    (mmMalloc stM 0).1 ≠ stM ∧
    mmFree stM none ≠ stM := by
  refine ⟨by decide, by decide, by decide, ?_, ?_⟩
  · intro h
    exact absurd (congrArg St.heapIndex h) (by decide)
  · intro h
    exact absurd (congrArg St.heapIndex h) (by decide)

/-- Claim C8 (amended): `allocate(0)` returns null and `release(null)`
returns, and both leave the arena contents, the bucket-head array, and all
other state unchanged except for stamping the class cursor to -1. -/
theorem alloc_zero_and_free_null_effects (st : St) :
    mmMalloc st 0 = ({ st with heapIndex := -1 }, none) ∧
    mmFree st none = { st with heapIndex := -1 } :=
  ⟨rfl, rfl⟩

end MM
